import Mathlib

/-!
# Navigation-mesh pathfinder: a shallow embedding of `nm_pathfinder.py`

The program searches for a path between two points through a navigation
mesh of axis-aligned boxes.  A mesh is a list of boxes `(x1, x2, y1, y2)`
plus an adjacency dictionary from a box to its neighbouring boxes.  The
functions embedded here are, in the source's names:

* `find_box point mesh` — linear scan returning the first box containing
  the point, `None` (here `Option.none`) otherwise;
* `calculate_detail_point box1 box2 point` — clamps `point` into the
  intersection rectangle of the two boxes;
* `find_path source destination mesh` — Dijkstra-style search over the
  adjacency graph with a lazy binary heap, followed by parent-chain
  backtracking.

Modelling conventions:

* Coordinates are rationals (`ℚ`).  The Python code works on floats; the
  claims under study are order/containment/structure claims, not rounding
  claims, so exact arithmetic is the faithful reading.
* `dist` in the source is the Euclidean distance `sqrt ((x2-x1)^2+(y2-y1)^2)`,
  which leaves `ℚ`.  The search is therefore parametrised by the metric
  `d : Point → Point → ℚ`; theorems that need it assume `0 ≤ d p q`, which
  the Euclidean distance satisfies.  None of the properties below depend on
  any further feature of the metric.
* Python dictionaries become association lists with in-place overwrite
  (`insertA`), which also preserves the key enumeration order of `dict.keys()`.
* Python `None` — used by `find_box` for "not found" and flowing from there
  into the search maps — becomes `Option.none`, so the search maps are keyed
  by `Option Box`.
* The `heapq` priority queue is modelled extensionally: `heappush` adds the
  entry to the pool, `heappop` (`popMin`) removes a least entry under the
  lexicographic order on `(cost, box)` that Python's tuple comparison uses.
  A binary heap holds exactly the pushed-but-not-popped multiset and pops a
  minimal element, which is what `popMin` does.
* The two `while` loops (the search loop and the backtracking walk) are
  given fuel; running out of fuel is the distinguished error `Err.outOfFuel`,
  and a `KeyError` raised by a dictionary lookup is `Err.keyError`.
* The `popped` field of the search state is ghost instrumentation: it
  records the boxes finalized (popped) by the search, in pop order, and is
  returned as the third component of the result so that claims about the
  finalized set can be stated.  It influences nothing.
-/

/-- A point `(x, y)`. -/
abbrev Point : Type := ℚ × ℚ

/-- A box `(x1, x2, y1, y2)`: x-range `[x1, x2]`, y-range `[y1, y2]`. -/
abbrev Box : Type := ℚ × ℚ × ℚ × ℚ

/-- The mesh: the box list and the adjacency dictionary. -/
structure Mesh where
  boxes : List Box
  adj : List (Box × List Box)
deriving DecidableEq

/-- Errors a run can surface: a Python `KeyError` from a dictionary lookup,
or exhaustion of the fuel that bounds a `while` loop of the embedding. -/
inductive Err where
  | keyError : Err
  | outOfFuel : Err
deriving DecidableEq, Repr

/-- Dictionary lookup on an association list (Python `m[k]` / `k in m`). -/
def lookupA {α β : Type} [DecidableEq α] : List (α × β) → α → Option β
  | [], _ => none
  | (k, v) :: rest, key => if key = k then some v else lookupA rest key

/-- Dictionary write `m[k] = v`: overwrites in place, appends a new key at
the end — exactly Python's key-order behaviour. -/
def insertA {α β : Type} [DecidableEq α] : List (α × β) → α → β → List (α × β)
  | [], key, v => [(key, v)]
  | (k, w) :: rest, key, v =>
      if key = k then (key, v) :: rest else (k, w) :: insertA rest key v

/-- `contains`: the point-in-box test of `find_box`'s loop body,
`x1 <= point[0] <= x2 and y1 <= point[1] <= y2`. -/
def containsB (box : Box) (point : Point) : Prop :=
  box.1 ≤ point.1 ∧ point.1 ≤ box.2.1 ∧ box.2.2.1 ≤ point.2 ∧ point.2 ≤ box.2.2.2

instance (box : Box) (point : Point) : Decidable (containsB box point) := by
  unfold containsB; infer_instance

/-- The `for box in mesh["boxes"]` loop of `find_box`. -/
def find_boxAux (point : Point) : List Box → Option Box
  | [] => none
  | box :: rest => if containsB box point then some box else find_boxAux point rest

/-- `find_box(point, mesh)`: first box of the mesh containing the point,
`None` when there is none. -/
def find_box (point : Point) (mesh : Mesh) : Option Box :=
  find_boxAux point mesh.boxes

/-- `calculate_detail_point(box1, box2, point)`: clamp `point` into the
intersection ranges of the two boxes, coordinatewise. -/
def calculate_detail_point (box1 box2 : Box) (point : Point) : Point :=
  let x1 := box1.1; let x2 := box1.2.1; let y1 := box1.2.2.1; let y2 := box1.2.2.2
  let x3 := box2.1; let x4 := box2.2.1; let y3 := box2.2.2.1; let y4 := box2.2.2.2
  let x_range : ℚ × ℚ := (max x1 x3, min x2 x4)
  let y_range : ℚ × ℚ := (max y1 y3, min y2 y4)
  let x_coord : ℚ :=
    if point.1 < x_range.1 then x_range.1
    else if point.1 > x_range.2 then x_range.2
    else point.1
  let y_coord : ℚ :=
    if point.2 < y_range.1 then y_range.1
    else if point.2 > y_range.2 then y_range.2
    else point.2
  (x_coord, y_coord)

/-- A queue entry `(priority, box)`, as pushed by `heappush(queue, (c, b))`. -/
abbrev QEntry : Type := ℚ × Option Box

/-- Lexicographic order on boxes, as Python compares coordinate tuples. -/
def boxLe (b1 b2 : Box) : Bool :=
  if b1.1 ≠ b2.1 then decide (b1.1 < b2.1)
  else if b1.2.1 ≠ b2.2.1 then decide (b1.2.1 < b2.2.1)
  else if b1.2.2.1 ≠ b2.2.2.1 then decide (b1.2.2.1 < b2.2.2.1)
  else decide (b1.2.2.2 ≤ b2.2.2.2)

/-- Order on the optional boxes in queue entries (`none` first; two `none`s
never coexist with anything else in a run, see `find_path`). -/
def obLe : Option Box → Option Box → Bool
  | none, _ => true
  | some _, none => false
  | some b1, some b2 => boxLe b1 b2

/-- The entry order of the priority queue: priority first, then the box —
Python's lexicographic tuple comparison. -/
def entryLe (e1 e2 : QEntry) : Bool :=
  decide (e1.1 < e2.1) || (decide (e1.1 = e2.1) && obLe e1.2 e2.2)

/-- `heappush`: the heap gains the entry. -/
def heappush (queue : List QEntry) (e : QEntry) : List QEntry :=
  queue ++ [e]

/-- `heappop`, extensionally: remove a least entry under `entryLe` (the heap
pops a minimal pushed-but-not-popped entry); `none` on the empty queue. -/
def popMin : List QEntry → Option (QEntry × List QEntry)
  | [] => none
  | e :: es =>
      match popMin es with
      | none => some (e, [])
      | some (m, rest) => if entryLe e m then some (e, es) else some (m, e :: rest)

/-- The mutable state of one `find_path` run: the dictionaries `boxes`
(box ↦ parent), `detail_point`, `start_pathcosts`, the priority queue, and
the ghost list of finalized (popped) boxes. -/
structure SState where
  parent : List (Option Box × Option Box)
  detail : List (Option Box × Point)
  costs : List (Option Box × ℚ)
  queue : List QEntry
  popped : List (Option Box)
deriving DecidableEq

/-- The update block of a successful relaxation (`find_path` lines 60–63):
overwrite detail point, cost and backpointer of the adjacent box and push it. -/
def pushUpdate (st : SState) (nb : Box) (potential : Point) (cost_to_child : ℚ)
    (curb : Box) : SState :=
  { parent := insertA st.parent (some nb) (some curb)
    detail := insertA st.detail (some nb) potential
    costs := insertA st.costs (some nb) cost_to_child
    queue := heappush st.queue (cost_to_child, some nb)
    popped := st.popped }

/-- One iteration of `for adjacent_box in mesh["adj"][current_box]`
(`find_path` lines 56–63), for the metric `d`. -/
def relaxOne (d : Point → Point → ℚ) (curb : Box) (st : SState) (nb : Box) :
    Except Err SState :=
  match lookupA st.detail (some curb), lookupA st.costs (some curb) with
  | some dp, some ccost =>
      let potential := calculate_detail_point nb curb dp
      let cost_to_child := ccost + d dp potential
      match lookupA st.costs (some nb) with
      | none => .ok (pushUpdate st nb potential cost_to_child curb)
      | some old =>
          if cost_to_child < old then .ok (pushUpdate st nb potential cost_to_child curb)
          else .ok st
  | _, _ => .error .keyError

/-- The whole `for adjacent_box in ...` loop over the neighbour list. -/
def relaxAll (d : Point → Point → ℚ) (curb : Box) :
    List Box → SState → Except Err SState
  | [], st => .ok st
  | nb :: rest, st =>
      match relaxOne d curb st nb with
      | .error e => .error e
      | .ok st' => relaxAll d curb rest st'

/-- The backtracking walk (`find_path` lines 48–50):
`while current_box is not None: path.append(detail_point[current_box]);
current_box = boxes[current_box]`.  Returns the appended points in append
order (the caller reverses them, as line 51 does). -/
def backtrack (fuel : Nat) (parent : List (Option Box × Option Box))
    (detail : List (Option Box × Point)) (cur : Option Box) (acc : List Point) :
    Except Err (List Point) :=
  match fuel, cur with
  | _, none => .ok acc
  | 0, some _ => .error .outOfFuel
  | fuel + 1, some b =>
      match lookupA detail (some b), lookupA parent (some b) with
      | some pt, some par => backtrack fuel parent detail par (acc ++ [pt])
      | _, _ => .error .keyError

/-- The `while queue:` loop of `find_path` (lines 43–63).  Returns the final
state and `some path` when the destination box was popped (lines 46–53),
`none` when the queue ran empty. -/
def searchLoop (d : Point → Point → ℚ) (mesh : Mesh) (destination_box : Option Box)
    (destination_point : Point) : Nat → SState → Except Err (SState × Option (List Point))
  | 0, _ => .error .outOfFuel
  | fuel + 1, st =>
      match popMin st.queue with
      | none => .ok (st, none)
      | some ((_, current_box), rest) =>
          let st1 : SState :=
            { st with queue := rest, popped := st.popped ++ [current_box] }
          if current_box = destination_box then
            match backtrack (st1.parent.length + 1) st1.parent st1.detail
                current_box [] with
            | .error e => .error e
            | .ok acc => .ok (st1, some (acc.reverse ++ [destination_point]))
          else
            match current_box with
            | none => .error .keyError
            | some curb =>
                match lookupA mesh.adj curb with
                | none => .error .keyError
                | some neighbors =>
                    match relaxAll d curb neighbors st1 with
                    | .error e => .error e
                    | .ok st2 => searchLoop d mesh destination_box destination_point fuel st2

/-- The state after `find_path`'s initialisation (lines 31–41): the starting
box is recorded with parent `None`, detail point `source_point`, cost `0`,
and pushed with priority `0`. -/
def initState (starting_box : Option Box) (source_point : Point) : SState :=
  { parent := insertA [] starting_box none
    detail := insertA [] starting_box source_point
    costs := insertA [] starting_box 0
    queue := heappush [] (0, starting_box)
    popped := [] }

/-- `find_path(source_point, destination_point, mesh)`, parametrised by the
metric `d` and the loop fuel.  Result on success: the path, the explored
boxes `boxes.keys()`, and (ghost) the list of finalized boxes in pop order. -/
def find_path (d : Point → Point → ℚ) (fuel : Nat)
    (source_point destination_point : Point) (mesh : Mesh) :
    Except Err (List Point × List (Option Box) × List (Option Box)) :=
  let starting_box := find_box source_point mesh
  let destination_box := find_box destination_point mesh
  match searchLoop d mesh destination_box destination_point fuel
      (initState starting_box source_point) with
  | .error e => .error e
  | .ok (st, result) =>
      let path := result.getD []
      if path.isEmpty then .ok ([], st.parent.map Prod.fst, st.popped)
      else .ok (path, st.parent.map Prod.fst, st.popped)

/-- The zero metric, used to instantiate witnesses (the properties proved
below hold for every nonnegative metric, the Euclidean one included). -/
def dZero : Point → Point → ℚ := fun _ _ => 0

/-- The two-box mesh of the spec's concrete scenario:
`A = (0,1,0,1)`, `B = (1,2,0,1)`, adjacent along `x = 1`. -/
def boxA : Box := (0, 1, 0, 1)

/-- Box `B = (1,2,0,1)` of the concrete scenario. -/
def boxB : Box := (1, 2, 0, 1)

/-- The two-box mesh `{A, B}` with symmetric adjacency. -/
def meshAB : Mesh :=
  { boxes := [boxA, boxB], adj := [(boxA, [boxB]), (boxB, [boxA])] }

/-- A mesh of two mutually unreachable boxes `A = (0,1,0,1)` and
`C = (3,4,0,1)` (empty adjacency lists). -/
def boxC : Box := (3, 4, 0, 1)

/-- The disconnected mesh `{A, C}`. -/
def meshDisc : Mesh :=
  { boxes := [boxA, boxC], adj := [(boxA, []), (boxC, [])] }

/-! ## Association-list dictionary lemmas -/

theorem lookupA_insertA_self {α β : Type} [DecidableEq α] (l : List (α × β)) (k : α) (v : β) :
    lookupA (insertA l k v) k = some v := by
  induction l with
  | nil => simp [insertA, lookupA]
  | cons kv rest ih =>
      obtain ⟨k', v'⟩ := kv
      by_cases h : k = k'
      · simp [insertA, h, lookupA]
      · simp [insertA, h, lookupA, ih]

theorem lookupA_insertA_ne {α β : Type} [DecidableEq α] (l : List (α × β)) (k k' : α) (v : β)
    (h : k' ≠ k) : lookupA (insertA l k v) k' = lookupA l k' := by
  induction l with
  | nil => simp [insertA, lookupA, h]
  | cons kv rest ih =>
      obtain ⟨k'', v''⟩ := kv
      by_cases h2 : k = k''
      · subst h2; simp [insertA, lookupA, h]
      · by_cases h3 : k' = k''
        · simp [insertA, h2, lookupA, h3]
        · simp [insertA, h2, lookupA, h3, ih]

theorem mem_map_fst_insertA {α β : Type} [DecidableEq α] (l : List (α × β)) (k k' : α) (v : β) :
    k' ∈ (insertA l k v).map Prod.fst ↔ k' = k ∨ k' ∈ l.map Prod.fst := by
  induction l with
  | nil => simp [insertA]
  | cons kv rest ih =>
      obtain ⟨k'', v''⟩ := kv
      by_cases h : k = k''
      · subst h; simp [insertA]
      · simp only [insertA, if_neg h, List.map_cons, List.mem_cons, ih]
        tauto

/-! ## Priority-queue (`popMin`) lemmas: the pop removes one present entry -/

theorem popMin_eq_none_iff (l : List QEntry) : popMin l = none ↔ l = [] := by
  cases l with
  | nil => simp [popMin]
  | cons e es =>
      simp only [popMin]
      cases h : popMin es with
      | none => simp
      | some pr =>
          obtain ⟨m, rest⟩ := pr
          by_cases hle : entryLe e m <;> simp [hle]

theorem popMin_mem {l : List QEntry} {e : QEntry} {rest : List QEntry}
    (h : popMin l = some (e, rest)) : e ∈ l := by
  induction l generalizing e rest with
  | nil => simp [popMin] at h
  | cons x xs ih =>
      simp only [popMin] at h
      cases h2 : popMin xs with
      | none => rw [h2] at h; injection h with h; injection h with h1 _; simp [← h1]
      | some pr =>
          obtain ⟨m, mrest⟩ := pr
          rw [h2] at h
          dsimp only at h
          by_cases hle : entryLe x m
          · rw [if_pos hle] at h
            injection h with h; injection h with h1 _
            simp [← h1]
          · rw [if_neg hle] at h
            injection h with h; injection h with h1 _
            have hm : m ∈ xs := ih h2
            rw [← h1]
            exact List.mem_cons_of_mem _ hm

theorem popMin_rest_subset {l : List QEntry} {e : QEntry} {rest : List QEntry}
    (h : popMin l = some (e, rest)) : ∀ x ∈ rest, x ∈ l := by
  induction l generalizing e rest with
  | nil => simp [popMin] at h
  | cons x xs ih =>
      simp only [popMin] at h
      cases h2 : popMin xs with
      | none =>
          rw [h2] at h; injection h with h; injection h with _ h2'
          subst h2'; intro y hy; simp at hy
      | some pr =>
          obtain ⟨m, mrest⟩ := pr
          rw [h2] at h
          dsimp only at h
          by_cases hle : entryLe x m
          · rw [if_pos hle] at h
            injection h with h; injection h with _ h2'
            subst h2'; intro y hy; exact List.mem_cons_of_mem _ hy
          · rw [if_neg hle] at h
            injection h with h; injection h with _ h2'
            subst h2'
            intro y hy
            rcases List.mem_cons.mp hy with h3 | h3
            · simp [h3]
            · exact List.mem_cons_of_mem _ (ih h2 y h3)

theorem popMin_cover {l : List QEntry} {e : QEntry} {rest : List QEntry}
    (h : popMin l = some (e, rest)) : ∀ x ∈ l, x = e ∨ x ∈ rest := by
  induction l generalizing e rest with
  | nil => simp [popMin] at h
  | cons x xs ih =>
      simp only [popMin] at h
      cases h2 : popMin xs with
      | none =>
          rw [h2] at h; injection h with h; injection h with h1 h2'
          subst h2'
          have hxs : xs = [] := (popMin_eq_none_iff xs).mp h2
          subst hxs
          intro y hy; simp at hy; left; rw [hy, ← h1]
      | some pr =>
          obtain ⟨m, mrest⟩ := pr
          rw [h2] at h
          dsimp only at h
          by_cases hle : entryLe x m
          · rw [if_pos hle] at h
            injection h with h; injection h with h1 h2'
            subst h2'
            intro y hy
            rcases List.mem_cons.mp hy with h3 | h3
            · left; rw [h3, ← h1]
            · right; exact h3
          · rw [if_neg hle] at h
            injection h with h; injection h with h1 h2'
            subst h2'
            intro y hy
            rcases List.mem_cons.mp hy with h3 | h3
            · right; exact List.mem_cons.mpr (Or.inl h3)
            · rcases ih h2 y h3 with h4 | h4
              · left; rw [h4, ← h1]
              · right; exact List.mem_cons.mpr (Or.inr h4)

/-! ## `find_box` characterisation -/

theorem find_boxAux_some_iff (p : Point) (l : List Box) (b : Box) :
    find_boxAux p l = some b ↔
      ∃ l1 l2, l = l1 ++ b :: l2 ∧ containsB b p ∧ ∀ b' ∈ l1, ¬ containsB b' p := by
  induction l with
  | nil =>
      simp only [find_boxAux]
      constructor
      · intro h; cases h
      · rintro ⟨l1, l2, h, -, -⟩; exact absurd h (List.append_ne_nil_of_right_ne_nil l1 (by simp)).symm
  | cons x xs ih =>
      simp only [find_boxAux]
      by_cases hx : containsB x p
      · rw [if_pos hx]
        constructor
        · intro h
          injection h with h
          exact ⟨[], xs, by rw [h]; rfl, by rw [← h]; exact hx, by simp⟩
        · rintro ⟨l1, l2, hsplit, hb, hall⟩
          cases l1 with
          | nil => simp at hsplit; rw [hsplit.1]
          | cons y ys =>
              simp at hsplit
              exact absurd (hsplit.1 ▸ hx) (hall y (by simp))
      · rw [if_neg hx, ih]
        constructor
        · rintro ⟨l1, l2, hsplit, hb, hall⟩
          refine ⟨x :: l1, l2, by rw [hsplit]; rfl, hb, ?_⟩
          intro b' hb'
          rcases List.mem_cons.mp hb' with h | h
          · rw [h]; exact hx
          · exact hall b' h
        · rintro ⟨l1, l2, hsplit, hb, hall⟩
          cases l1 with
          | nil =>
              simp at hsplit
              exact absurd (hsplit.1 ▸ hb) hx
          | cons y ys =>
              simp at hsplit
              exact ⟨ys, l2, hsplit.2, hb, fun b' hb' => hall b' (by simp [hb'])⟩

theorem find_boxAux_none_iff (p : Point) (l : List Box) :
    find_boxAux p l = none ↔ ∀ b ∈ l, ¬ containsB b p := by
  induction l with
  | nil => simp [find_boxAux]
  | cons x xs ih =>
      simp only [find_boxAux]
      by_cases hx : containsB x p
      · rw [if_pos hx]
        simp only [List.mem_cons]
        constructor
        · intro h; cases h
        · intro h; exact absurd hx (h x (Or.inl rfl))
      · rw [if_neg hx, ih]
        simp only [List.mem_cons]
        constructor
        · intro h b hb
          rcases hb with h' | h'
          · rw [h']; exact hx
          · exact h b h'
        · intro h b hb; exact h b (Or.inr hb)

/-! ## The per-run invariant behind the path-endpoint property -/

/-- Invariant of the search state for a run rooted at `sb` with source point
`src` and a nonnegative metric: the root keeps parent `None`, it is the only
key with parent `None`, its detail point stays the source point, its cost
stays `0`, all recorded costs are nonnegative, and (when the root is a real
box) every queue entry names a real box. -/
def InvC3 (sb : Option Box) (src : Point) (st : SState) : Prop :=
  lookupA st.parent sb = some none ∧
  (∀ k, lookupA st.parent k = some none → k = sb) ∧
  lookupA st.detail sb = some src ∧
  lookupA st.costs sb = some 0 ∧
  (∀ k c, lookupA st.costs k = some c → 0 ≤ c) ∧
  (sb ≠ none → ∀ e ∈ st.queue, e.2 ≠ none)

theorem relaxOne_invC3 {d : Point → Point → ℚ} (hd : ∀ p q, 0 ≤ d p q)
    {sb : Option Box} {src : Point} {curb : Box} {st st' : SState} {nb : Box}
    (hinv : InvC3 sb src st) (h : relaxOne d curb st nb = .ok st') :
    InvC3 sb src st' := by
  obtain ⟨i1, i2, i3, i4, i5, i6⟩ := hinv
  unfold relaxOne at h
  cases hdp : lookupA st.detail (some curb) with
  | none => rw [hdp] at h; cases h
  | some dp =>
  cases hcc : lookupA st.costs (some curb) with
  | none => rw [hdp, hcc] at h; cases h
  | some ccost =>
  rw [hdp, hcc] at h
  dsimp only at h
  have hccost : 0 ≤ ccost := i5 _ _ hcc
  have hctc : 0 ≤ ccost + d dp (calculate_detail_point nb curb dp) :=
    add_nonneg hccost (hd _ _)
  -- in every branch that updates, the updated key cannot be the root
  have hupd : ∀ (hne : sb ≠ some nb),
      InvC3 sb src (pushUpdate st nb (calculate_detail_point nb curb dp)
        (ccost + d dp (calculate_detail_point nb curb dp)) curb) := by
    intro hne
    refine ⟨?_, ?_, ?_, ?_, ?_, ?_⟩
    · rw [pushUpdate]; dsimp only; rw [lookupA_insertA_ne _ _ _ _ hne]; exact i1
    · intro k hk
      rw [pushUpdate] at hk; dsimp only at hk
      by_cases hkk : k = some nb
      · subst hkk; rw [lookupA_insertA_self] at hk; cases hk
      · rw [lookupA_insertA_ne _ _ _ _ hkk] at hk; exact i2 k hk
    · rw [pushUpdate]; dsimp only; rw [lookupA_insertA_ne _ _ _ _ hne]; exact i3
    · rw [pushUpdate]; dsimp only; rw [lookupA_insertA_ne _ _ _ _ hne]; exact i4
    · intro k c hk
      rw [pushUpdate] at hk; dsimp only at hk
      by_cases hkk : k = some nb
      · subst hkk; rw [lookupA_insertA_self] at hk
        injection hk with hk; rw [← hk]; exact hctc
      · rw [lookupA_insertA_ne _ _ _ _ hkk] at hk; exact i5 k c hk
    · intro hsb e he
      rw [pushUpdate] at he; dsimp only at he
      rw [heappush] at he
      rcases List.mem_append.mp he with h' | h'
      · exact i6 hsb e h'
      · simp at h'; rw [h']; simp
  cases hnb : lookupA st.costs (some nb) with
  | none =>
      rw [hnb] at h
      injection h with h
      rw [← h]
      refine hupd ?_
      intro hcontra; rw [hcontra] at i4; rw [i4] at hnb; cases hnb
  | some old =>
      rw [hnb] at h
      dsimp only at h
      by_cases hlt : ccost + d dp (calculate_detail_point nb curb dp) < old
      · rw [if_pos hlt] at h
        injection h with h
        rw [← h]
        refine hupd ?_
        intro hcontra
        rw [hcontra] at i4; rw [i4] at hnb
        injection hnb with hnb
        rw [← hnb] at hlt
        exact absurd hlt (not_lt.mpr hctc)
      · rw [if_neg hlt] at h
        injection h with h
        rw [← h]
        exact ⟨i1, i2, i3, i4, i5, i6⟩

theorem relaxAll_invC3 {d : Point → Point → ℚ} (hd : ∀ p q, 0 ≤ d p q)
    {sb : Option Box} {src : Point} {curb : Box} :
    ∀ (ns : List Box) (st st' : SState), InvC3 sb src st →
      relaxAll d curb ns st = .ok st' → InvC3 sb src st' := by
  intro ns
  induction ns with
  | nil => intro st st' hinv h; injection h with h; rw [← h]; exact hinv
  | cons nb rest ih =>
      intro st st' hinv h
      rw [relaxAll] at h
      cases h1 : relaxOne d curb st nb with
      | error e => rw [h1] at h; cases h
      | ok st1 =>
          rw [h1] at h
          exact ih st1 st' (relaxOne_invC3 hd hinv h1) h

/-- The backtracking walk, started at a real box, appends a nonempty chain
of detail points whose last element is the detail point of the unique
`None`-parented key — the starting box, whose detail point is the source. -/
theorem backtrack_root {sb : Option Box} {src : Point}
    {parent : List (Option Box × Option Box)} {detail : List (Option Box × Point)}
    (h2 : ∀ k, lookupA parent k = some none → k = sb)
    (h3 : lookupA detail sb = some src) :
    ∀ (fuel : Nat) (cur : Option Box) (acc res : List Point),
      backtrack fuel parent detail cur acc = .ok res →
      (cur = none → res = acc) ∧
      (cur ≠ none → ∃ l, res = acc ++ l ∧ l ≠ [] ∧ l.getLast? = some src) := by
  intro fuel
  induction fuel with
  | zero =>
      intro cur acc res h
      cases cur with
      | none =>
          rw [backtrack] at h
          injection h with h
          exact ⟨fun _ => h.symm, fun hc => absurd rfl hc⟩
      | some b => rw [backtrack] at h; cases h
  | succ n ih =>
      intro cur acc res h
      cases cur with
      | none =>
          rw [backtrack] at h
          injection h with h
          exact ⟨fun _ => h.symm, fun hc => absurd rfl hc⟩
      | some b =>
          refine ⟨fun hc => (Option.some_ne_none b hc).elim, fun _ => ?_⟩
          rw [backtrack.eq_def] at h
          dsimp only at h
          cases hpt : lookupA detail (some b) with
          | none => rw [hpt] at h; cases h
          | some pt =>
          cases hpar : lookupA parent (some b) with
          | none => rw [hpt, hpar] at h; cases h
          | some par =>
          rw [hpt, hpar] at h
          dsimp only at h
          have hrec := ih par (acc ++ [pt]) res h
          cases par with
          | none =>
              have hres : res = acc ++ [pt] := hrec.1 rfl
              have hb : (some b : Option Box) = sb := h2 _ hpar
              have hpt' : pt = src := by
                rw [hb, h3] at hpt
                exact (Option.some.inj hpt).symm
              exact ⟨[pt], hres, by simp, by simp [hpt']⟩
          | some b' =>
              obtain ⟨l, hres, hlne, hlast⟩ := hrec.2 (by simp)
              refine ⟨pt :: l, by rw [hres]; simp, by simp, ?_⟩
              cases l with
              | nil => exact absurd rfl hlne
              | cons z zs => rw [List.getLast?_cons_cons]; exact hlast

/-- Any path the search loop produces ends in the destination point, and —
when the run is rooted at a real box — starts at the source point. -/
theorem searchLoop_endpoints {d : Point → Point → ℚ} (hd : ∀ p q, 0 ≤ d p q)
    (mesh : Mesh) (dbox : Option Box) (dpt : Point) (sb : Option Box) (src : Point) :
    ∀ (fuel : Nat) (st st' : SState) (res : Option (List Point)) (p : List Point),
      InvC3 sb src st →
      searchLoop d mesh dbox dpt fuel st = .ok (st', res) →
      res = some p →
      p.getLast? = some dpt ∧ (sb ≠ none → p.head? = some src) := by
  intro fuel
  induction fuel with
  | zero => intro st st' res p _ h _; rw [searchLoop] at h; cases h
  | succ n ih =>
      intro st st' res p hinv h hres
      rw [searchLoop] at h
      cases hq : popMin st.queue with
      | none =>
          rw [hq] at h
          injection h with h
          injection h with h1 h2
          rw [hres] at h2; cases h2
      | some pr =>
          obtain ⟨⟨c0, cur⟩, rest⟩ := pr
          rw [hq] at h
          dsimp only at h
          obtain ⟨i1, i2, i3, i4, i5, i6⟩ := hinv
          by_cases hcd : cur = dbox
          · rw [if_pos hcd] at h
            cases hb : backtrack (st.parent.length + 1) st.parent st.detail cur [] with
            | error e => rw [hb] at h; cases h
            | ok acc =>
                rw [hb] at h
                injection h with h
                injection h with h1 h2
                rw [hres] at h2
                injection h2 with h2
                constructor
                · rw [← h2, List.getLast?_append]; rfl
                · intro hsb
                  have hcur : cur ≠ none := by
                    have hmem : (c0, cur) ∈ st.queue := popMin_mem hq
                    exact i6 hsb (c0, cur) hmem
                  obtain ⟨l, hresl, hlne, hlast⟩ :=
                    (backtrack_root i2 i3 _ cur [] acc hb).2 hcur
                  have hacc : acc = l := by simpa using hresl
                  have hrev : l.reverse.head? = some src := by
                    rw [List.head?_reverse]; exact hlast
                  rw [← h2, hacc, List.head?_append, hrev]
                  rfl
          · rw [if_neg hcd] at h
            cases cur with
            | none => cases h
            | some curb =>
                dsimp only at h
                cases ha : lookupA mesh.adj curb with
                | none => rw [ha] at h; cases h
                | some ns =>
                    rw [ha] at h
                    dsimp only at h
                    cases hr : relaxAll d curb ns
                        { parent := st.parent, detail := st.detail, costs := st.costs,
                          queue := rest, popped := st.popped ++ [some curb] } with
                    | error e => rw [hr] at h; cases h
                    | ok st2 =>
                        rw [hr] at h
                        have hinv1 : InvC3 sb src
                            { parent := st.parent, detail := st.detail, costs := st.costs,
                              queue := rest, popped := st.popped ++ [some curb] } := by
                          refine ⟨i1, i2, i3, i4, i5, ?_⟩
                          intro hsb e he
                          exact i6 hsb e (popMin_rest_subset hq e he)
                        exact ih st2 st' res p (relaxAll_invC3 hd ns _ st2 hinv1 hr) h hres

/-! ## The discovered = finalized-or-enqueued invariant behind exhaustion -/

/-- A key is in the parent map (`boxes`, whose keys the function returns as
the explored set) exactly when it has been finalized (popped) or still sits
in the priority queue. -/
def InvC6 (st : SState) : Prop :=
  ∀ k, k ∈ st.parent.map Prod.fst ↔ (k ∈ st.popped ∨ ∃ c, (c, k) ∈ st.queue)

theorem relaxOne_invC6 {d : Point → Point → ℚ} {curb : Box} {st st' : SState} {nb : Box}
    (hinv : InvC6 st) (h : relaxOne d curb st nb = .ok st') : InvC6 st' := by
  unfold relaxOne at h
  cases hdp : lookupA st.detail (some curb) with
  | none => rw [hdp] at h; cases h
  | some dp =>
  cases hcc : lookupA st.costs (some curb) with
  | none => rw [hdp, hcc] at h; cases h
  | some ccost =>
  rw [hdp, hcc] at h
  dsimp only at h
  have hpush : InvC6 (pushUpdate st nb (calculate_detail_point nb curb dp)
      (ccost + d dp (calculate_detail_point nb curb dp)) curb) := by
    intro k
    rw [pushUpdate]; dsimp only
    rw [mem_map_fst_insertA, heappush]
    constructor
    · rintro (hk | hk)
      · exact Or.inr ⟨ccost + d dp (calculate_detail_point nb curb dp),
          List.mem_append.mpr (Or.inr (by simp [hk]))⟩
      · rcases (hinv k).mp hk with h' | ⟨c, h'⟩
        · exact Or.inl h'
        · exact Or.inr ⟨c, List.mem_append.mpr (Or.inl h')⟩
    · rintro (hk | ⟨c, hk⟩)
      · exact Or.inr ((hinv k).mpr (Or.inl hk))
      · rcases List.mem_append.mp hk with h' | h'
        · exact Or.inr ((hinv k).mpr (Or.inr ⟨c, h'⟩))
        · simp at h'; exact Or.inl h'.2
  cases hnb : lookupA st.costs (some nb) with
  | none =>
      rw [hnb] at h
      injection h with h
      rw [← h]; exact hpush
  | some old =>
      rw [hnb] at h
      dsimp only at h
      by_cases hlt : ccost + d dp (calculate_detail_point nb curb dp) < old
      · rw [if_pos hlt] at h
        injection h with h
        rw [← h]; exact hpush
      · rw [if_neg hlt] at h
        injection h with h
        rw [← h]; exact hinv

theorem relaxAll_invC6 {d : Point → Point → ℚ} {curb : Box} :
    ∀ (ns : List Box) (st st' : SState), InvC6 st →
      relaxAll d curb ns st = .ok st' → InvC6 st' := by
  intro ns
  induction ns with
  | nil => intro st st' hinv h; injection h with h; rw [← h]; exact hinv
  | cons nb rest ih =>
      intro st st' hinv h
      rw [relaxAll] at h
      cases h1 : relaxOne d curb st nb with
      | error e => rw [h1] at h; cases h
      | ok st1 =>
          rw [h1] at h
          exact ih st1 st' (relaxOne_invC6 hinv h1) h

/-- When the loop ends by queue exhaustion, the parent-map keys (the
explored set the function returns) are exactly the finalized boxes. -/
theorem searchLoop_exhaustion {d : Point → Point → ℚ} (mesh : Mesh)
    (dbox : Option Box) (dpt : Point) :
    ∀ (fuel : Nat) (st st' : SState), InvC6 st →
      searchLoop d mesh dbox dpt fuel st = .ok (st', none) →
      ∀ k, k ∈ st'.parent.map Prod.fst ↔ k ∈ st'.popped := by
  intro fuel
  induction fuel with
  | zero => intro st st' _ h; rw [searchLoop] at h; cases h
  | succ n ih =>
      intro st st' hinv h
      rw [searchLoop] at h
      cases hq : popMin st.queue with
      | none =>
          rw [hq] at h
          injection h with h
          injection h with h1 h2
          rw [← h1]
          have hempty : st.queue = [] := (popMin_eq_none_iff _).mp hq
          intro k
          rw [hinv k, hempty]
          simp
      | some pr =>
          obtain ⟨⟨c0, cur⟩, rest⟩ := pr
          rw [hq] at h
          dsimp only at h
          have hinv1 : InvC6
              { parent := st.parent, detail := st.detail, costs := st.costs,
                queue := rest, popped := st.popped ++ [cur] } := by
            intro k
            dsimp only
            constructor
            · intro hk
              rcases (hinv k).mp hk with h' | ⟨c, h'⟩
              · exact Or.inl (List.mem_append.mpr (Or.inl h'))
              · rcases popMin_cover hq _ h' with h'' | h''
                · injection h'' with he1 he2
                  exact Or.inl (List.mem_append.mpr (Or.inr (by simp [he2])))
                · exact Or.inr ⟨c, h''⟩
            · rintro (hk | ⟨c, hk⟩)
              · rcases List.mem_append.mp hk with h' | h'
                · exact (hinv k).mpr (Or.inl h')
                · simp at h'
                  subst h'
                  exact (hinv k).mpr (Or.inr ⟨c0, popMin_mem hq⟩)
              · exact (hinv k).mpr (Or.inr ⟨c, popMin_rest_subset hq _ hk⟩)
          by_cases hcd : cur = dbox
          · rw [if_pos hcd] at h
            cases hb : backtrack (st.parent.length + 1) st.parent st.detail cur [] with
            | error e => rw [hb] at h; cases h
            | ok acc =>
                rw [hb] at h
                injection h with h
                injection h with h1 h2
                cases h2
          · rw [if_neg hcd] at h
            cases cur with
            | none => cases h
            | some curb =>
                dsimp only at h
                cases ha : lookupA mesh.adj curb with
                | none => rw [ha] at h; cases h
                | some ns =>
                    rw [ha] at h
                    dsimp only at h
                    cases hr : relaxAll d curb ns
                        { parent := st.parent, detail := st.detail, costs := st.costs,
                          queue := rest, popped := st.popped ++ [some curb] } with
                    | error e => rw [hr] at h; cases h
                    | ok st2 =>
                        rw [hr] at h
                        exact ih st2 st' (relaxAll_invC6 ns _ st2 hinv1 hr) h

/-- A path produced by the destination branch is never empty (the
destination point is appended to it). -/
theorem searchLoop_path_ne_nil {d : Point → Point → ℚ} (mesh : Mesh)
    (dbox : Option Box) (dpt : Point) :
    ∀ (fuel : Nat) (st st' : SState) (p : List Point),
      searchLoop d mesh dbox dpt fuel st = .ok (st', some p) → p ≠ [] := by
  intro fuel
  induction fuel with
  | zero => intro st st' p h; rw [searchLoop] at h; cases h
  | succ n ih =>
      intro st st' p h
      rw [searchLoop] at h
      cases hq : popMin st.queue with
      | none =>
          rw [hq] at h
          injection h with h
          injection h with h1 h2
          cases h2
      | some pr =>
          obtain ⟨⟨c0, cur⟩, rest⟩ := pr
          rw [hq] at h
          dsimp only at h
          by_cases hcd : cur = dbox
          · rw [if_pos hcd] at h
            cases hb : backtrack (st.parent.length + 1) st.parent st.detail cur [] with
            | error e => rw [hb] at h; cases h
            | ok acc =>
                rw [hb] at h
                injection h with h
                injection h with h1 h2
                injection h2 with h2
                rw [← h2]
                simp
          · rw [if_neg hcd] at h
            cases cur with
            | none => cases h
            | some curb =>
                dsimp only at h
                cases ha : lookupA mesh.adj curb with
                | none => rw [ha] at h; cases h
                | some ns =>
                    rw [ha] at h
                    dsimp only at h
                    cases hr : relaxAll d curb ns
                        { parent := st.parent, detail := st.detail, costs := st.costs,
                          queue := rest, popped := st.popped ++ [some curb] } with
                    | error e => rw [hr] at h; cases h
                    | ok st2 =>
                        rw [hr] at h
                        exact ih st2 st' p h

/-- The initial state satisfies the root invariant. -/
theorem initState_invC3 (sb : Option Box) (src : Point) : InvC3 sb src (initState sb src) := by
  refine ⟨?_, ?_, ?_, ?_, ?_, ?_⟩
  · simp [initState, insertA, lookupA]
  · intro k hk
    simp only [initState, insertA, lookupA] at hk
    by_cases h : k = sb
    · exact h
    · rw [if_neg h] at hk; cases hk
  · simp [initState, insertA, lookupA]
  · simp [initState, insertA, lookupA]
  · intro k c hk
    simp only [initState, insertA, lookupA] at hk
    by_cases h : k = sb
    · rw [if_pos h] at hk; injection hk with hk; rw [← hk]
    · rw [if_neg h] at hk; cases hk
  · intro hsb e he
    simp only [initState, heappush, List.nil_append, List.mem_singleton] at he
    rw [he]
    exact hsb

/-- The initial state satisfies the discovered = finalized-or-enqueued
invariant. -/
theorem initState_invC6 (sb : Option Box) (src : Point) : InvC6 (initState sb src) := by
  intro k
  constructor
  · intro hk
    have hks : k = sb := by
      simp only [initState, insertA, List.map_cons, List.map_nil,
        List.mem_singleton] at hk
      exact hk
    refine Or.inr ⟨0, ?_⟩
    rw [hks]
    simp [initState, heappush]
  · rintro (hk | ⟨c, hk⟩)
    · simp [initState] at hk
    · simp only [initState, heappush, List.nil_append, List.mem_singleton] at hk
      injection hk with h1 h2
      simp [initState, insertA, h2]

/-! ## The claims -/

/-- C9: box localization scans the mesh's boxes in enumeration order and
returns the first box whose closed x- and y-ranges contain the point, and
returns the not-found result (`None`) exactly when no box contains it. -/
theorem find_box_first_containing (p : Point) (mesh : Mesh) :
    (∀ b : Box, find_box p mesh = some b ↔
      ∃ l1 l2, mesh.boxes = l1 ++ b :: l2 ∧ containsB b p ∧ ∀ b' ∈ l1, ¬ containsB b' p) ∧
    (find_box p mesh = none ↔ ∀ b ∈ mesh.boxes, ¬ containsB b p) :=
  ⟨fun b => find_boxAux_some_iff p mesh.boxes b, find_boxAux_none_iff p mesh.boxes⟩

/-- C5: for two boxes whose coordinate ranges overlap on each axis, the
detail point returned by `calculate_detail_point` lies within both boxes'
closed x- and y-ranges. -/
theorem calculate_detail_point_mem_both (b1 b2 : Box) (p : Point)
    (hx : max b1.1 b2.1 ≤ min b1.2.1 b2.2.1)
    (hy : max b1.2.2.1 b2.2.2.1 ≤ min b1.2.2.2 b2.2.2.2) :
    containsB b1 (calculate_detail_point b1 b2 p) ∧
    containsB b2 (calculate_detail_point b1 b2 p) := by
  obtain ⟨x1, x2, y1, y2⟩ := b1
  obtain ⟨x3, x4, y3, y4⟩ := b2
  simp only [calculate_detail_point, containsB] at *
  split_ifs <;>
    refine ⟨⟨?_, ?_, ?_, ?_⟩, ?_, ?_, ?_, ?_⟩ <;>
    first
      | linarith [le_max_left x1 x3, le_max_right x1 x3,
          min_le_left x2 x4, min_le_right x2 x4]
      | linarith [le_max_left y1 y3, le_max_right y1 y3,
          min_le_left y2 y4, min_le_right y2 y4]

/-- C8: when relaxing an adjacent box `nb` from a popped box `curb`, the
recorded state of `nb` (parent, cost, detail point) is overwritten and `nb`
is pushed with priority equal to the accrued cost exactly when `nb` is
undiscovered (`adjacent_box not in start_pathcosts`) or the new cost is
strictly below the recorded one; otherwise the state is left unchanged. -/
theorem relax_update_iff (d : Point → Point → ℚ) (curb : Box) (st : SState) (nb : Box)
    (dp : Point) (c : ℚ)
    (hdp : lookupA st.detail (some curb) = some dp)
    (hc : lookupA st.costs (some curb) = some c) :
    ((lookupA st.costs (some nb) = none ∨
        ∃ old, lookupA st.costs (some nb) = some old ∧
          c + d dp (calculate_detail_point nb curb dp) < old) →
      relaxOne d curb st nb = .ok
        { parent := insertA st.parent (some nb) (some curb)
          detail := insertA st.detail (some nb) (calculate_detail_point nb curb dp)
          costs := insertA st.costs (some nb) (c + d dp (calculate_detail_point nb curb dp))
          queue := heappush st.queue (c + d dp (calculate_detail_point nb curb dp), some nb)
          popped := st.popped }) ∧
    ((∃ old, lookupA st.costs (some nb) = some old ∧
        ¬ c + d dp (calculate_detail_point nb curb dp) < old) →
      relaxOne d curb st nb = .ok st) := by
  constructor
  · rintro (hnone | ⟨old, hold, hlt⟩)
    · unfold relaxOne
      rw [hdp, hc]
      dsimp only
      rw [hnone]
      rfl
    · unfold relaxOne
      rw [hdp, hc]
      dsimp only
      rw [hold]
      dsimp only
      rw [if_pos hlt]
      rfl
  · rintro ⟨old, hold, hnlt⟩
    unfold relaxOne
    rw [hdp, hc]
    dsimp only
    rw [hold]
    dsimp only
    rw [if_neg hnlt]

/-- C2: on the two-box mesh `A = (0,1,0,1)`, `B = (1,2,0,1)`, the query
from `(0.2, 0.5)` to `(1.8, 0.5)` returns exactly the path
`[(0.2,0.5), (1.0,0.5), (1.8,0.5)]` (for any metric: only one route
exists, so the priorities never influence the outcome). -/
theorem find_path_two_box_scenario (d : Point → Point → ℚ) :
    find_path d 10 (1/5, 1/2) (9/5, 1/2) meshAB =
      .ok ([(1/5, 1/2), (1, 1/2), (9/5, 1/2)],
        [some boxA, some boxB], [some boxA, some boxB]) := by
  with_unfolding_all rfl

/-- C1: `find_path` does not report any `PointOutsideMesh` failure.  With
the source outside every box (and the destination inside), the run aborts
with a `KeyError` after having pushed and popped the `None` pseudo-box;
with the destination outside instead, the search runs to exhaustion and
returns the generic empty-path result with a non-empty explored set. -/
theorem find_path_outside_no_error_report (d : Point → Point → ℚ) :
    find_path d 10 (5, 5) (1/2, 1/2) meshAB = .error .keyError ∧
    find_path dZero 10 (1/2, 1/2) (5, 5) meshAB =
      .ok ([], [some boxA, some boxB], [some boxA, some boxB]) :=
  ⟨by with_unfolding_all rfl, by with_unfolding_all rfl⟩

/-- C7: the two failure situations are not distinguishable.  On the
disconnected mesh `{A, C}`, a genuine no-path query (both endpoints inside)
and a destination-outside-the-mesh query return identical values; a
source-outside query does not return a structured result at all but raises
`KeyError`. -/
theorem find_path_failures_conflated (d : Point → Point → ℚ) :
    find_path d 10 (1/2, 1/2) (7/2, 1/2) meshDisc =
      find_path d 10 (1/2, 1/2) (9, 9) meshDisc ∧
    find_path d 10 (1/2, 1/2) (7/2, 1/2) meshDisc = .ok ([], [some boxA], [some boxA]) ∧
    find_box ((7:ℚ)/2, (1:ℚ)/2) meshDisc = some boxC ∧
    find_box ((9:ℚ), (9:ℚ)) meshDisc = none ∧
    find_path d 10 (9, 9) (1/2, 1/2) meshDisc = .error .keyError :=
  ⟨by with_unfolding_all rfl, by with_unfolding_all rfl, by with_unfolding_all rfl,
    by with_unfolding_all rfl, by with_unfolding_all rfl⟩

/-- C10, counterexample: with both endpoints outside every box of the
two-box mesh, `find_path` returns the single-point path `[destination]`,
not `[source, destination]`. -/
theorem find_path_both_outside_counterexample :
    find_path dZero 5 (7, 7) (8, 8) meshAB = .ok ([(8, 8)], [none], [none]) ∧
    ([((8:ℚ), (8:ℚ))] : List Point) ≠ [(7, 7), (8, 8)] :=
  ⟨by with_unfolding_all rfl, by decide⟩

/-- C3, counterexample: a query with both endpoints outside the mesh
returns the non-empty path `[(6,6)]` whose first element is the
destination, not the source `(5,5)`. -/
theorem find_path_head_ne_source :
    find_path dZero 5 (5, 5) (6, 6) meshAB = .ok ([(6, 6)], [none], [none]) ∧
    ([((6:ℚ), (6:ℚ))] : List Point) ≠ [] ∧
    ([((6:ℚ), (6:ℚ))] : List Point).head? ≠ some ((5:ℚ), (5:ℚ)) :=
  ⟨by with_unfolding_all rfl, by decide, by decide⟩

/-- C4: when both query points are located into the same box, `find_path`
returns exactly the two-element path `[source, destination]` (and that box
is the whole explored and finalized set). -/
theorem find_path_same_box (d : Point → Point → ℚ) (fuel : Nat) (mesh : Mesh)
    (s t : Point) (b : Box) (hs : find_box s mesh = some b)
    (ht : find_box t mesh = some b) (hf : 1 ≤ fuel) :
    find_path d fuel s t mesh = .ok ([s, t], [some b], [some b]) := by
  obtain ⟨n, rfl⟩ : ∃ n, fuel = n + 1 := ⟨fuel - 1, by omega⟩
  simp only [find_path, hs, ht]
  rw [searchLoop]
  simp only [initState, insertA, heappush, List.nil_append]
  rw [show popMin [((0:ℚ), some b)] = some (((0:ℚ), some b), []) from rfl]
  dsimp only
  rw [if_pos rfl]
  rw [show backtrack (([((some b : Option Box), (none : Option Box))]).length + 1)
      [((some b : Option Box), (none : Option Box))] [((some b : Option Box), s)]
      (some b) [] = .ok [s] from by
    rw [backtrack.eq_def]
    dsimp only
    rw [show lookupA [((some b : Option Box), s)] (some b) = some s from by
      simp [lookupA]]
    rw [show lookupA [((some b : Option Box), (none : Option Box))] (some b) =
        some none from by simp [lookupA]]
    rfl]
  dsimp only
  rfl

/-- C10, amended: when both the source and the destination are contained by
no box of the mesh, `find_path` returns the non-empty single-point path
`[destination_point]` (the parent-chain walk stops at once on the `None`
pseudo-box, leaving only the appended destination), with `{None}` as
explored set, rather than reporting an error. -/
theorem find_path_both_outside (d : Point → Point → ℚ) (fuel : Nat) (mesh : Mesh)
    (s t : Point) (hs : find_box s mesh = none) (ht : find_box t mesh = none)
    (hf : 1 ≤ fuel) :
    find_path d fuel s t mesh = .ok ([t], [none], [none]) := by
  obtain ⟨n, rfl⟩ : ∃ n, fuel = n + 1 := ⟨fuel - 1, by omega⟩
  simp only [find_path, hs, ht]
  rw [searchLoop]
  simp only [initState, insertA, heappush, List.nil_append]
  rw [show popMin [((0:ℚ), (none : Option Box))] =
      some (((0:ℚ), (none : Option Box)), []) from rfl]
  dsimp only
  rw [if_pos rfl]
  rw [show backtrack (([((none : Option Box), (none : Option Box))]).length + 1)
      [((none : Option Box), (none : Option Box))] [((none : Option Box), s)]
      none [] = .ok [] from by rw [backtrack]]
  dsimp only
  rfl

/-- C3, amended: a non-empty returned path always ends exactly at the
destination point, and begins exactly at the source point provided the
source is contained by some mesh box (with both endpoints outside every
box, the non-empty path `[destination]` is returned instead). -/
theorem find_path_endpoints (d : Point → Point → ℚ) (hd : ∀ p q, 0 ≤ d p q)
    (fuel : Nat) (s t : Point) (mesh : Mesh) (path : List Point)
    (expl fin : List (Option Box))
    (h : find_path d fuel s t mesh = .ok (path, expl, fin)) (hne : path ≠ []) :
    path.getLast? = some t ∧ ((find_box s mesh).isSome → path.head? = some s) := by
  simp only [find_path] at h
  cases hl : searchLoop d mesh (find_box t mesh) t fuel (initState (find_box s mesh) s) with
  | error e => rw [hl] at h; cases h
  | ok pr =>
      obtain ⟨st', res⟩ := pr
      rw [hl] at h
      dsimp only at h
      cases res with
      | none =>
          simp only [Option.getD, List.isEmpty] at h
          injection h with h
          injection h with h1 h2
          exact absurd h1.symm hne
      | some p =>
          cases p with
          | nil =>
              simp only [Option.getD, List.isEmpty] at h
              injection h with h
              injection h with h1 h2
              exact absurd h1.symm hne
          | cons a as =>
              simp only [Option.getD, List.isEmpty] at h
              injection h with h
              injection h with h1 h2
              have hmain := searchLoop_endpoints hd mesh (find_box t mesh) t
                (find_box s mesh) s fuel (initState (find_box s mesh) s) st' (some (a :: as))
                (a :: as) (initState_invC3 (find_box s mesh) s) hl rfl
              rw [← h1]
              exact ⟨hmain.1, fun hsome => hmain.2 (Option.isSome_iff_ne_none.mp hsome)⟩

/-- C6: when the search's queue runs empty without the destination box
having been popped — exactly the runs that return an empty path — the
explored set `boxes.keys()` that `find_path` reports equals (as a set) the
set of boxes finalized (popped) during the search. -/
theorem find_path_exhaustion_explored (d : Point → Point → ℚ) (fuel : Nat)
    (s t : Point) (mesh : Mesh) (path : List Point) (expl fin : List (Option Box))
    (h : find_path d fuel s t mesh = .ok (path, expl, fin)) (hpath : path = []) :
    expl.toFinset = fin.toFinset := by
  simp only [find_path] at h
  cases hl : searchLoop d mesh (find_box t mesh) t fuel (initState (find_box s mesh) s) with
  | error e => rw [hl] at h; cases h
  | ok pr =>
      obtain ⟨st', res⟩ := pr
      rw [hl] at h
      dsimp only at h
      cases res with
      | some p =>
          have hpne := searchLoop_path_ne_nil mesh (find_box t mesh) t fuel
            (initState (find_box s mesh) s) st' p hl
          cases p with
          | nil => exact absurd rfl hpne
          | cons a as =>
              simp only [Option.getD, List.isEmpty] at h
              injection h with h
              injection h with h1 h2
              rw [← h1] at hpath
              cases hpath
      | none =>
          simp only [Option.getD, List.isEmpty] at h
          injection h with h
          injection h with h1 h2
          injection h2 with h2 h3
          have hiff := searchLoop_exhaustion mesh (find_box t mesh) t fuel
            (initState (find_box s mesh) s) st' (initState_invC6 (find_box s mesh) s) hl
          apply Finset.ext
          intro x
          rw [List.mem_toFinset, List.mem_toFinset, ← h2, ← h3]
          exact hiff x

/-! ## Witnesses: the hypotheses discharged at concrete inputs -/

/-- Witness for C5 at the two adjacent boxes of the concrete scenario and
the reference point `(0.2, 0.5)`. -/
theorem calculate_detail_point_mem_both_witness :
    containsB boxB (calculate_detail_point boxB boxA (1/5, 1/2)) ∧
    containsB boxA (calculate_detail_point boxB boxA (1/5, 1/2)) :=
  calculate_detail_point_mem_both boxB boxA (1/5, 1/2)
    (by norm_num [boxA, boxB]) (by norm_num [boxA, boxB])

/-- Witness for C4: a same-box query on the two-box mesh. -/
theorem find_path_same_box_witness :
    find_path dZero 1 (1/2, 1/2) (1/2, 3/4) meshAB =
      .ok ([(1/2, 1/2), (1/2, 3/4)], [some boxA], [some boxA]) :=
  find_path_same_box dZero 1 meshAB (1/2, 1/2) (1/2, 3/4) boxA
    (by with_unfolding_all rfl) (by with_unfolding_all rfl) (by omega)

/-- Witness for C10's amended claim: both endpoints outside the two-box
mesh. -/
theorem find_path_both_outside_witness :
    find_path dZero 3 (10, 10) (11, 11) meshAB = .ok ([(11, 11)], [none], [none]) :=
  find_path_both_outside dZero 3 meshAB (10, 10) (11, 11)
    (by with_unfolding_all rfl) (by with_unfolding_all rfl) (by omega)

/-- Witness for C3's amended claim on the concrete two-box run. -/
theorem find_path_endpoints_witness :
    ([(1/5, 1/2), (1, 1/2), (9/5, 1/2)] : List Point).getLast? = some (9/5, 1/2) ∧
    ([(1/5, 1/2), (1, 1/2), (9/5, 1/2)] : List Point).head? = some (1/5, 1/2) := by
  have h := find_path_endpoints dZero (fun p q => le_refl 0) 10 (1/5, 1/2) (9/5, 1/2)
    meshAB [(1/5, 1/2), (1, 1/2), (9/5, 1/2)] [some boxA, some boxB] [some boxA, some boxB]
    (by with_unfolding_all rfl) (by decide)
  exact ⟨h.1, h.2 (by with_unfolding_all rfl)⟩

/-- Witness for C6: a run that exhausts the queue on the disconnected mesh. -/
theorem find_path_exhaustion_explored_witness :
    ([some boxA] : List (Option Box)).toFinset = ([some boxA] : List (Option Box)).toFinset :=
  find_path_exhaustion_explored dZero 10 (1/2, 1/2) (7/2, 1/2) meshDisc []
    [some boxA] [some boxA] (by with_unfolding_all rfl) rfl

/-- Witness for C8: relaxing the undiscovered box `B` from `A` in the
freshly initialised state of the concrete scenario. -/
theorem relax_update_iff_witness :
    relaxOne dZero boxA (initState (some boxA) (1/5, 1/2)) boxB = .ok
      { parent := insertA (initState (some boxA) (1/5, 1/2)).parent (some boxB) (some boxA)
        detail := insertA (initState (some boxA) (1/5, 1/2)).detail (some boxB)
          (calculate_detail_point boxB boxA (1/5, 1/2))
        costs := insertA (initState (some boxA) (1/5, 1/2)).costs (some boxB)
          (0 + dZero (1/5, 1/2) (calculate_detail_point boxB boxA (1/5, 1/2)))
        queue := heappush (initState (some boxA) (1/5, 1/2)).queue
          (0 + dZero (1/5, 1/2) (calculate_detail_point boxB boxA (1/5, 1/2)), some boxB)
        popped := (initState (some boxA) (1/5, 1/2)).popped } :=
  (relax_update_iff dZero boxA (initState (some boxA) (1/5, 1/2)) boxB (1/5, 1/2) 0
    (by with_unfolding_all rfl) (by with_unfolding_all rfl)).1
    (Or.inl (by with_unfolding_all rfl))
